import Mathlib

/-!
Shallow embedding of the Next Dink event-registration core.

Sources embedded here:
* `src/utils/eventCodeUtils.ts` — event-code alphabet, generation, validation.
* `eventService` (team-registration variant) — `create`'s unique-code retry
  loop, `registerTeam`, `leaveTeam`, `claimSlot`, `updateTeamMember`,
  `removeTeam`, `addGuestTeam`, `inviteUser`, `removeInvitation`,
  `declineInvitation`, `declineEvent`, `addAdmin`, `removeAdmin`.
* the `useEvents` hook — `getRegistrationStatus`, `getUserStatusForEvent`.
* the `useEvent` hook — the pending-invited-users filter.

Modelling conventions: Firestore documents become a pure `Event` value and
each service operation becomes a pure function `Event → …`; the
transactional read-modify-write wrapper is the identity on this level (an
operation either returns the updated event or an error, in which case the
stored aggregate is untouched).  Wall-clock fields (`createdAt`,
`updatedAt`, `date`, `endTime`) and display-only metadata (name, venue,
coordinates, visibility, joinType, status) are dropped: no claim below
mentions them and no embedded operation branches on them.  JavaScript's
`Math.random`-driven choices are passed in as explicit arguments.
-/

/-- One member slot of a team registration: `{type:"user"|"guest"|"open"}`
tagged union from `event.types`. `open` is a Lean keyword, hence `open_`. -/
inductive TeamMember where
  | user (userId : String) (displayName : String) (photoUrl : Option String)
  | guest (displayName : String)
  | open_
deriving DecidableEq, Repr

/-- `member.type === "user" && member.userId === uid`. -/
def TeamMember.isUserWithId (m : TeamMember) (uid : String) : Bool :=
  match m with
  | .user u _ _ => u == uid
  | _ => false

/-- One roster entry (`TeamRegistration`).  `createdAt` is dropped (wall
clock, never branched on). -/
structure TeamRegistration where
  id : String
  createdBy : String
  members : List TeamMember
deriving DecidableEq, Repr

/-- `team.members.some(m => m.type === "user" && m.userId === uid)`. -/
def teamHasUser (uid : String) (team : TeamRegistration) : Bool :=
  team.members.any (fun m => m.isUserWithId uid)

/-- The event aggregate, restricted to the fields the registration core
reads or writes. -/
structure Event where
  teamSize : Nat
  maxTeams : Nat
  ownerId : String
  adminIds : List String
  registrations : List TeamRegistration
  invitedUserIds : List String
  declinedUserIds : List String
deriving DecidableEq, Repr

/-- `registrations.some(team => team.members.some(... userId))` — the
already-registered check shared by `registerTeam` and `claimSlot`. -/
def isUserRegistered (regs : List TeamRegistration) (uid : String) : Bool :=
  regs.any (teamHasUser uid)

/-- Firestore `arrayUnion(x)` on a string array: append iff absent. -/
def arrayUnion (l : List String) (x : String) : List String :=
  if x ∈ l then l else l ++ [x]

/-- Firestore `arrayRemove(x)` on a string array: remove all occurrences. -/
def arrayRemove (l : List String) (x : String) : List String :=
  l.filter (fun y => y ≠ x)

/-! ## Event code utilities (`eventCodeUtils.ts`) -/

/-- `const ALLOWED_CHARS = 'ABCDEFGHJKLMNPQRSTUVWXYZ23456789'`. -/
def ALLOWED_CHARS : String := "ABCDEFGHJKLMNPQRSTUVWXYZ23456789"

/-- The allowed characters as a list. -/
def allowedCharsList : List Char := ALLOWED_CHARS.data

/-- `generateEventCode()`: five characters, each picked by
`Math.floor(Math.random() * ALLOWED_CHARS.length)`.  The random draws are
passed in as `ri`; `Math.random()` lies in `[0,1)`, so each drawn index is
a valid position in the 32-character alphabet, which `Fin 32` captures. -/
def generateEventCode (ri : Fin 5 → Fin 32) : String :=
  String.mk ((List.finRange 5).map
    (fun i => allowedCharsList.get (Fin.cast (by decide) (ri i))))

/-- Embedding of JavaScript `code === code.toUpperCase()` for the ASCII
strings this code handles. -/
def isAllUpper (code : String) : Bool :=
  code == String.map Char.toUpper code

/-- `isValidEventCode(code)`. -/
def isValidEventCode (code : String) : Bool :=
  if code.length ≠ 5 then false
  else if ¬ isAllUpper code then false
  else code.data.all (fun c => allowedCharsList.contains c)

/-! ## `eventService.create`'s unique-code retry loop

Both `eventService` variants contain the identical loop

```
let eventCode = generateEventCode();
let attempts = 0;
while (!(await this.isEventCodeUnique(eventCode)) && attempts < 10) {
  eventCode = generateEventCode();
  attempts++;
}
if (attempts >= 10) throw new Error("Failed to generate unique event code. Please try again.");
```

The store-backed uniqueness check is abstracted as a predicate
`isUnique : String → Bool` and the stream of generated codes as
`gen : Nat → String` (`gen 0` is the initial code, `gen k` the code
produced by the `k`-th loop iteration).  The loop body runs at most 10
times because of the `attempts < 10` guard taken from the source; `fuel`
only mirrors that bound so the recursion is structural, and any
`fuel ≥ 11` is non-binding. -/
def codeLoop (isUnique : String → Bool) (gen : Nat → String) :
    Nat → String → Nat → String × Nat
  | 0, code, attempts => (code, attempts)
  | fuel + 1, code, attempts =>
    if isUnique code = false ∧ attempts < 10 then
      codeLoop isUnique gen fuel (gen (attempts + 1)) (attempts + 1)
    else
      (code, attempts)

/-- The code-selection part of `eventService.create`: the loop above
followed by the `attempts >= 10` exhaustion check.  On success the chosen
`eventCode` is returned. -/
def createEventCode (isUnique : String → Bool) (gen : Nat → String) :
    Except String String :=
  let r := codeLoop isUnique gen 11 (gen 0) 0
  if r.2 ≥ 10 then
    Except.error "Failed to generate unique event code. Please try again."
  else
    Except.ok r.1

/-! ## Capacity & status calculator (`useEvents` hook) -/

/-- `UserRegistrationStatus = "going" | "waitlisted" | "not_registered"`. -/
inductive UserRegistrationStatus where
  | going
  | waitlisted
  | not_registered
deriving DecidableEq, Repr

/-- `UserEventStatus` — the primary classification. -/
inductive UserEventStatus where
  | owner
  | admin
  | going
  | waitlisted
  | invited
  | declined
deriving DecidableEq, Repr

/-- Return shape of `getRegistrationStatus`: `waitlistPosition` is absent
(`none`) unless waitlisted. -/
structure RegStatusInfo where
  status : UserRegistrationStatus
  waitlistPosition : Option Nat
deriving DecidableEq, Repr

/-- `getRegistrationStatus(event, userId)` from the `useEvents` hook.
JavaScript's `findIndex` returning `-1` is modelled by `findIdx?`
returning `none`. -/
def getRegistrationStatus (e : Event) (userId : String) : RegStatusInfo :=
  match e.registrations.findIdx? (teamHasUser userId) with
  | none => ⟨.not_registered, none⟩
  | some registrationIndex =>
    if registrationIndex < e.maxTeams then
      ⟨.going, none⟩
    else
      ⟨.waitlisted, some (registrationIndex - e.maxTeams + 1)⟩

/-- Return shape of `getUserStatusForEvent`; absent optional fields are
`none`. -/
structure UserStatusInfo where
  status : UserEventStatus
  registrationStatus : Option UserRegistrationStatus
  waitlistPosition : Option Nat
deriving DecidableEq, Repr

/-- `getUserStatusForEvent(event, userId)` from the `useEvents` hook. -/
def getUserStatusForEvent (e : Event) (userId : String) :
    Option UserStatusInfo :=
  let regStatus := getRegistrationStatus e userId
  if e.ownerId == userId then
    some ⟨.owner,
      if regStatus.status ≠ .not_registered then some regStatus.status
      else none,
      regStatus.waitlistPosition⟩
  else if e.adminIds.contains userId then
    some ⟨.admin,
      if regStatus.status ≠ .not_registered then some regStatus.status
      else none,
      regStatus.waitlistPosition⟩
  else
    match regStatus.status with
    | .going => some ⟨.going, none, regStatus.waitlistPosition⟩
    | .waitlisted => some ⟨.waitlisted, none, regStatus.waitlistPosition⟩
    | .not_registered =>
      if e.invitedUserIds.contains userId then
        some ⟨.invited, none, none⟩
      else if e.declinedUserIds.contains userId then
        some ⟨.declined, none, none⟩
      else
        none

/-! ## Registration state machine (`eventService`, team variant)

Each operation takes the current aggregate and returns either an error (in
which case the transaction writes nothing) or the updated aggregate.  Team
ids produced by `generateTeamId()` are passed in as the `teamId`
argument. -/

/-- `{status: "joined" | "waitlisted"}`. -/
inductive RegStatus where
  | joined
  | waitlisted
deriving DecidableEq, Repr

/-- Result of `registerTeam` / `addGuestTeam`, together with the event the
transaction wrote back. -/
structure RegisterResult where
  status : RegStatus
  teamId : String
  event : Event
deriving DecidableEq, Repr

/-- Result of `claimSlot`, together with the event written back. -/
structure ClaimResult where
  status : RegStatus
  event : Event
deriving DecidableEq, Repr

/-- `eventService.registerTeam`. -/
def registerTeam (teamId : String) (e : Event)
    (userId userDisplayName : String) (userPhotoUrl : Option String)
    (teamDataMembers : List TeamMember) : Except String RegisterResult :=
  if teamDataMembers.length ≠ e.teamSize then
    Except.error ("Team must have exactly " ++ toString e.teamSize
      ++ " member(s)")
  else if isUserRegistered e.registrations userId then
    Except.error "You are already registered for this event"
  else
    let captainMember : TeamMember :=
      .user userId userDisplayName userPhotoUrl
    -- `[captainMember, ...teamData.members.slice(1)]`
    let members : List TeamMember := captainMember :: teamDataMembers.drop 1
    let newTeam : TeamRegistration := ⟨teamId, userId, members⟩
    let updatedRegistrations := e.registrations ++ [newTeam]
    let teamIndex := updatedRegistrations.length - 1
    let status : RegStatus :=
      if teamIndex < e.maxTeams then .joined else .waitlisted
    Except.ok ⟨status, teamId, { e with registrations := updatedRegistrations }⟩

/-- `eventService.leaveTeam`.  The source's
`registrations.filter((_, index) => index !== teamIndex)` removes exactly
the entry at `teamIndex`, i.e. `eraseIdx`; `findIdx?` always returns an
in-range index, so the inner `none` branch is dead. -/
def leaveTeam (e : Event) (userId : String) : Except String Event :=
  match e.registrations.findIdx? (teamHasUser userId) with
  | none => Except.error "You are not registered for this event"
  | some teamIndex =>
    match e.registrations[teamIndex]? with
    | none => Except.error "You are not registered for this event"
    | some team =>
      if team.createdBy == userId then
        Except.ok { e with
          registrations := e.registrations.eraseIdx teamIndex }
      else
        match team.members.findIdx? (fun m => m.isUserWithId userId) with
        | none => Except.error "Member not found in team"
        | some memberIndex =>
          let updatedMembers := team.members.set memberIndex .open_
          let updatedTeam := { team with members := updatedMembers }
          Except.ok { e with
            registrations := e.registrations.set teamIndex updatedTeam }

/-- `eventService.claimSlot`.  A natural-number `memberIndex` makes the
source's `memberIndex < 0` test vacuous; `memberIndex >= length` is the
`none` branch of the lookup. -/
def claimSlot (e : Event) (teamId : String) (memberIndex : Nat)
    (userId userDisplayName : String) (userPhotoUrl : Option String) :
    Except String ClaimResult :=
  if isUserRegistered e.registrations userId then
    Except.error "You are already registered for this event"
  else
    match e.registrations.findIdx? (fun team => team.id == teamId) with
    | none => Except.error "Team not found"
    | some teamIndex =>
      match e.registrations[teamIndex]? with
      | none => Except.error "Team not found"
      | some team =>
        match team.members[memberIndex]? with
        | none => Except.error "Invalid slot position"
        | some slot =>
          match slot with
          | .user _ _ _ => Except.error "This slot cannot be claimed"
          | _ =>
            let updatedMembers := team.members.set memberIndex
              (.user userId userDisplayName userPhotoUrl)
            let updatedTeam := { team with members := updatedMembers }
            let status : RegStatus :=
              if teamIndex < e.maxTeams then .joined else .waitlisted
            Except.ok ⟨status, { e with
              registrations := e.registrations.set teamIndex updatedTeam }⟩

/-- `eventService.updateTeamMember`.  The source guard is
`memberIndex <= 0 || memberIndex >= team.members.length`; for a natural
index `<= 0` is `= 0`. -/
def updateTeamMember (e : Event) (teamId : String) (memberIndex : Nat)
    (userId : String) (newMember : TeamMember) : Except String Event :=
  match e.registrations.findIdx? (fun team => team.id == teamId) with
  | none => Except.error "Team not found"
  | some teamIndex =>
    match e.registrations[teamIndex]? with
    | none => Except.error "Team not found"
    | some team =>
      if team.createdBy ≠ userId then
        Except.error "Only the team captain can edit team members"
      else if memberIndex = 0 ∨ memberIndex ≥ team.members.length then
        Except.error "Invalid slot position"
      else
        let updatedMembers := team.members.set memberIndex newMember
        let updatedTeam := { team with members := updatedMembers }
        Except.ok { e with
          registrations := e.registrations.set teamIndex updatedTeam }

/-- `eventService.removeTeam`. -/
def removeTeam (e : Event) (teamId : String) : Event :=
  { e with registrations :=
      e.registrations.filter (fun team => team.id ≠ teamId) }

/-- `eventService.addGuestTeam`.  `name.trim() || "Guest"` substitutes
`"Guest"` exactly when the trimmed name is the empty string. -/
def addGuestTeam (teamId : String) (e : Event) (adminUserId : String)
    (guestNames : List String) : Except String RegisterResult :=
  if guestNames.length ≠ e.teamSize then
    Except.error ("Team must have exactly " ++ toString e.teamSize
      ++ " member(s)")
  else
    let members : List TeamMember := guestNames.map (fun name =>
      .guest (if name.trim = "" then "Guest" else name.trim))
    let newTeam : TeamRegistration := ⟨teamId, adminUserId, members⟩
    let updatedRegistrations := e.registrations ++ [newTeam]
    let teamIndex := updatedRegistrations.length - 1
    let status : RegStatus :=
      if teamIndex < e.maxTeams then .joined else .waitlisted
    Except.ok ⟨status, teamId, { e with registrations := updatedRegistrations }⟩

/-- `eventService.inviteUser`: `arrayUnion(userId)`. -/
def inviteUser (e : Event) (userId : String) : Event :=
  { e with invitedUserIds := arrayUnion e.invitedUserIds userId }

/-- `eventService.removeInvitation`: `arrayRemove(userId)`. -/
def removeInvitation (e : Event) (userId : String) : Event :=
  { e with invitedUserIds := arrayRemove e.invitedUserIds userId }

/-- `eventService.declineInvitation`: `arrayRemove` from invited,
`arrayUnion` into declined. -/
def declineInvitation (e : Event) (userId : String) : Event :=
  { e with
    invitedUserIds := arrayRemove e.invitedUserIds userId
    declinedUserIds := arrayUnion e.declinedUserIds userId }

/-- `eventService.declineEvent`: the `leaveTeam` removal logic plus an
inline idempotent append to `declinedUserIds`. -/
def declineEvent (e : Event) (userId : String) : Except String Event :=
  match e.registrations.findIdx? (teamHasUser userId) with
  | none => Except.error "You are not registered for this event"
  | some teamIndex =>
    match e.registrations[teamIndex]? with
    | none => Except.error "You are not registered for this event"
    | some team =>
      let updatedDeclinedUserIds :=
        if e.declinedUserIds.contains userId then e.declinedUserIds
        else e.declinedUserIds ++ [userId]
      if team.createdBy == userId then
        Except.ok { e with
          registrations := e.registrations.eraseIdx teamIndex
          declinedUserIds := updatedDeclinedUserIds }
      else
        match team.members.findIdx? (fun m => m.isUserWithId userId) with
        | none => Except.error "Member not found in team"
        | some memberIndex =>
          let updatedMembers := team.members.set memberIndex .open_
          let updatedTeam := { team with members := updatedMembers }
          Except.ok { e with
            registrations := e.registrations.set teamIndex updatedTeam
            declinedUserIds := updatedDeclinedUserIds }

/-- `eventService.addAdmin`: `arrayUnion(userId)` on `adminIds`. -/
def addAdmin (e : Event) (userId : String) : Event :=
  { e with adminIds := arrayUnion e.adminIds userId }

/-- `eventService.removeAdmin`: `arrayRemove(userId)` on `adminIds`. -/
def removeAdmin (e : Event) (userId : String) : Event :=
  { e with adminIds := arrayRemove e.adminIds userId }

/-! ## `useEvent` hook: pending invited users -/

/-- The set of user ids registered in some team, as collected by the
`useEvent` hook (`member.type === "user" && member.userId` — the truthiness
test skips an empty `userId`). -/
def registeredUserIds (regs : List TeamRegistration) : List String :=
  regs.flatMap (fun reg => reg.members.filterMap (fun m =>
    match m with
    | .user u _ _ => if u ≠ "" then some u else none
    | _ => none))

/-- `pendingInvitedIds`: invited users who have not already joined. -/
def pendingInvitedIds (e : Event) : List String :=
  e.invitedUserIds.filter
    (fun id => ¬ (registeredUserIds e.registrations).contains id)

/-! ## Spec-side definitions and the operation alphabet -/

/-- The user-status classification as the spec words it (C5): first match
in the priority order owner > admin > going > waitlisted > invited >
declined > none, with a secondary personal registration status carried by
owner/admin.  Written from the spec sentence, to be compared with the
embedded `getUserStatusForEvent`. -/
def userStatusPrioritySpec (e : Event) (uid : String) :
    Option UserStatusInfo :=
  let ridx := e.registrations.findIdx? (teamHasUser uid)
  let personal : Option UserRegistrationStatus :=
    match ridx with
    | none => none
    | some i => some (if i < e.maxTeams then .going else .waitlisted)
  let wpos : Option Nat :=
    match ridx with
    | none => none
    | some i => if i < e.maxTeams then none else some (i - e.maxTeams + 1)
  if e.ownerId = uid then some ⟨.owner, personal, wpos⟩
  else if uid ∈ e.adminIds then some ⟨.admin, personal, wpos⟩
  else
    match personal with
    | some .going => some ⟨.going, none, wpos⟩
    | some .waitlisted => some ⟨.waitlisted, none, wpos⟩
    | _ =>
      if uid ∈ e.invitedUserIds then some ⟨.invited, none, none⟩
      else if uid ∈ e.declinedUserIds then some ⟨.declined, none, none⟩
      else none

/-- `member.type === "user"`. -/
def TeamMember.isUser : TeamMember → Bool
  | .user _ _ _ => true
  | _ => false

/-- The state-machine operations of `eventService`, as one alphabet, so
that invariant preservation can be stated once over all of them. -/
inductive Op where
  | registerTeam (teamId userId userDisplayName : String)
      (userPhotoUrl : Option String) (teamDataMembers : List TeamMember)
  | leaveTeam (userId : String)
  | declineEvent (userId : String)
  | claimSlot (teamId : String) (memberIndex : Nat)
      (userId userDisplayName : String) (userPhotoUrl : Option String)
  | updateTeamMember (teamId : String) (memberIndex : Nat)
      (userId : String) (newMember : TeamMember)
  | removeTeam (teamId : String)
  | addGuestTeam (teamId adminUserId : String) (guestNames : List String)
  | inviteUser (userId : String)
  | removeInvitation (userId : String)
  | declineInvitation (userId : String)
  | addAdmin (userId : String)
  | removeAdmin (userId : String)

/-- Run one operation against the aggregate, keeping only the written
event (registration results are dropped). -/
def applyOp (op : Op) (e : Event) : Except String Event :=
  match op with
  | .registerTeam teamId userId dn pu tm =>
    (registerTeam teamId e userId dn pu tm).map (fun r => r.event)
  | .leaveTeam uid => leaveTeam e uid
  | .declineEvent uid => declineEvent e uid
  | .claimSlot teamId mi uid dn pu =>
    (claimSlot e teamId mi uid dn pu).map (fun r => r.event)
  | .updateTeamMember teamId mi uid m => updateTeamMember e teamId mi uid m
  | .removeTeam teamId => Except.ok (removeTeam e teamId)
  | .addGuestTeam teamId admin names =>
    (addGuestTeam teamId e admin names).map (fun r => r.event)
  | .inviteUser uid => Except.ok (inviteUser e uid)
  | .removeInvitation uid => Except.ok (removeInvitation e uid)
  | .declineInvitation uid => Except.ok (declineInvitation e uid)
  | .addAdmin uid => Except.ok (addAdmin e uid)
  | .removeAdmin uid => Except.ok (removeAdmin e uid)

/-- Input discipline under which the at-most-one-registration invariant
is preserved (C3, amended): `registerTeam`'s caller-supplied tail slots
are declared `guest` or `open` (as the spec states), and
`updateTeamMember` only writes a `user` slot for a user not currently in
any registration.  Every other operation needs no condition. -/
def OpGood : Op → Event → Prop
  | .registerTeam _ _ _ _ tm, _ => ∀ m ∈ tm.drop 1, m.isUser = false
  | .updateTeamMember _ _ _ newMember, e =>
    ∀ u dn pu, newMember = .user u dn pu →
      isUserRegistered e.registrations u = false
  | _, _ => True

/-- The at-most-one-registration invariant: no user id occurs as a
`user`-type member in two different registrations. -/
def AtMostOneInv (e : Event) : Prop :=
  ∀ uid : String, e.registrations.countP (teamHasUser uid) ≤ 1

/-! ## Helper lemmas -/

/-- A user who fails the already-registered check occurs in no team. -/
theorem findIdx?_none_of_not_registered {regs : List TeamRegistration}
    {uid : String} (h : isUserRegistered regs uid = false) :
    regs.findIdx? (teamHasUser uid) = none := by
  rw [List.findIdx?_eq_none_iff]
  intro t ht
  by_contra hc
  have : regs.any (teamHasUser uid) = true :=
    List.any_eq_true.mpr ⟨t, ht, by simpa using hc⟩
  rw [isUserRegistered] at h
  simp [this] at h

/-- A user who fails the already-registered check is in zero teams. -/
theorem countP_zero_of_not_registered {regs : List TeamRegistration}
    {uid : String} (h : isUserRegistered regs uid = false) :
    regs.countP (teamHasUser uid) = 0 := by
  rw [List.countP_eq_zero]
  intro t ht
  by_contra hc
  have : regs.any (teamHasUser uid) = true :=
    List.any_eq_true.mpr ⟨t, ht, by simpa using hc⟩
  rw [isUserRegistered] at h
  simp [this] at h

/-- Closed form of a successful `registerTeam`. -/
theorem registerTeam_ok_eq (teamId : String) (e : Event)
    (userId userDisplayName : String) (userPhotoUrl : Option String)
    (teamDataMembers : List TeamMember)
    (hsize : teamDataMembers.length = e.teamSize)
    (hnew : isUserRegistered e.registrations userId = false) :
    registerTeam teamId e userId userDisplayName userPhotoUrl teamDataMembers =
      Except.ok ⟨(if e.registrations.length < e.maxTeams then .joined
          else .waitlisted), teamId,
        { e with registrations := e.registrations ++
            [⟨teamId, userId,
              .user userId userDisplayName userPhotoUrl ::
                teamDataMembers.drop 1⟩] }⟩ := by
  rw [registerTeam]
  simp [hsize, hnew]

/-! ## C6 -/

/-- C6 counterexample: the claim calls the alphabet a 33-symbol set, but
`ALLOWED_CHARS` (the uppercase letters and digits minus 0, 1, I, O) has
exactly 32 characters. -/
theorem eventCode_alphabet_c6_counterexample :
    allowedCharsList.length = 32 ∧ allowedCharsList.length ≠ 33 := by
  decide

/-- C6 (amended to the 32-symbol alphabet): every generated event code has
length 5 and draws all characters from `ALLOWED_CHARS`, and
`isValidEventCode` accepts a string iff it has length 5, is all-uppercase,
and every character belongs to `ALLOWED_CHARS`. -/
theorem eventCode_generate_valid_c6 :
    (∀ ri : Fin 5 → Fin 32, (generateEventCode ri).length = 5 ∧
      ∀ c ∈ (generateEventCode ri).data, c ∈ allowedCharsList) ∧
    (∀ code : String, isValidEventCode code = true ↔
      (code.length = 5 ∧ isAllUpper code = true ∧
        ∀ c ∈ code.data, c ∈ allowedCharsList)) := by
  constructor
  · intro ri
    constructor
    · simp [generateEventCode, String.length]
    · intro c hc
      simp only [generateEventCode, String.mk] at hc
      simp only [List.mem_map] at hc
      obtain ⟨i, _, rfl⟩ := hc
      exact List.get_mem _ _ _
  · intro code
    rw [isValidEventCode]
    by_cases h1 : code.length = 5
    · by_cases h2 : isAllUpper code = true
      · simp [h1, h2, List.all_eq_true, List.contains, List.elem_iff]
      · simp [h1, h2]
    · simp [h1]

/-! ## C1 -/

/-- C1: a `registerTeam` call meeting the preconditions (member list of
length `teamSize`, registering user not yet in any registration) appends
exactly one registration at the end, whose slot 0 is the registering
user's slot and whose slots 1.. are the caller-supplied slots, and
returns the new registration's id together with `joined` iff its index
(the old length) is below `maxTeams`, else `waitlisted`. -/
theorem registerTeam_appends_c1 (teamId : String) (e : Event)
    (userId userDisplayName : String) (userPhotoUrl : Option String)
    (teamDataMembers : List TeamMember)
    (hsize : teamDataMembers.length = e.teamSize)
    (hnew : isUserRegistered e.registrations userId = false) :
    registerTeam teamId e userId userDisplayName userPhotoUrl teamDataMembers =
      Except.ok ⟨(if e.registrations.length < e.maxTeams then .joined
          else .waitlisted), teamId,
        { e with registrations := e.registrations ++
            [⟨teamId, userId,
              .user userId userDisplayName userPhotoUrl ::
                teamDataMembers.drop 1⟩] }⟩ :=
  registerTeam_ok_eq teamId e userId userDisplayName userPhotoUrl
    teamDataMembers hsize hnew

/-- C1 witness: a concrete one-member registration on an empty two-team
event joins at index 0. -/
theorem registerTeam_appends_c1_witness :
    registerTeam "t1" ⟨1, 2, "owner", [], [], [], []⟩
        "alice" "Alice" none [.open_] =
      Except.ok ⟨.joined, "t1",
        ⟨1, 2, "owner", [],
          [⟨"t1", "alice", [.user "alice" "Alice" none]⟩], [], []⟩⟩ := by
  have h := registerTeam_appends_c1 "t1" ⟨1, 2, "owner", [], [], [], []⟩
    "alice" "Alice" none [.open_] rfl rfl
  simpa using h

/-! ## C7 -/

/-- If every usable code (indices `a ≤ k < 10`) is non-unique, the loop
started at attempt `a` exhausts the budget. -/
theorem codeLoop_fail (isUnique : String → Bool) (gen : Nat → String) :
    ∀ (fuel a : Nat), 11 ≤ a + fuel → a ≤ 10 →
    (∀ k, a ≤ k → k < 10 → isUnique (gen k) = false) →
    (codeLoop isUnique gen fuel (gen a) a).2 = 10 := by
  intro fuel
  induction fuel with
  | zero => intro a h1 h2 _; omega
  | succ n ih =>
    intro a h1 h2 hk
    rw [codeLoop]
    by_cases ha : a < 10
    · rw [if_pos ⟨hk a le_rfl ha, ha⟩]
      exact ih (a + 1) (by omega) (by omega)
        (fun k hk1 hk2 => hk k (by omega) hk2)
    · have ha10 : a = 10 := by omega
      rw [if_neg (by simp [ha])]
      exact ha10

/-- If `gen j` (for `j < 10`) is the first unique code from attempt `a`
on, the loop stops there and returns it. -/
theorem codeLoop_success (isUnique : String → Bool) (gen : Nat → String) :
    ∀ (fuel a : Nat), 11 ≤ a + fuel →
    ∀ j, a ≤ j → j < 10 → isUnique (gen j) = true →
    (∀ k, a ≤ k → k < j → isUnique (gen k) = false) →
    codeLoop isUnique gen fuel (gen a) a = (gen j, j) := by
  intro fuel
  induction fuel with
  | zero => intro a h1 j haj hj _ _; omega
  | succ n ih =>
    intro a h1 j haj hj hu hk
    rw [codeLoop]
    rcases Nat.lt_or_ge a j with hlt | hge
    · rw [if_pos ⟨hk a le_rfl hlt, by omega⟩]
      exact ih (a + 1) (by omega) j (by omega) hj hu
        (fun k hk1 hk2 => hk k (by omega) hk2)
    · have : a = j := by omega
      subst this
      rw [if_neg (by simp [hu])]

/-- C7 counterexample: with code stream `gen i = "C" ++ toString i` and
only `"C10"` unique, creation still fails — the loop's 10th retry
generates `"C10"` and its uniqueness check runs in the loop condition,
but the `attempts < 10` conjunct exits the loop and the exhaustion branch
throws, so a checked unique code does not prevent the failure (and the
first generated unique code is not used). -/
theorem createEventCode_c7_counterexample :
    createEventCode (fun c => c == "C" ++ toString (10 : Nat))
        (fun i => "C" ++ toString i) =
      Except.error "Failed to generate unique event code. Please try again."
    ∧ (fun c => c == "C" ++ toString (10 : Nat))
        ((fun i => "C" ++ toString i) 10) = true := by
  constructor
  · rfl
  · rfl

/-- C7 (amended): creation fails exactly when the initial code and the
first 9 retry codes (`gen 0 .. gen 9`) are all non-unique — the 10th
retry's code is generated and checked but can never be used; otherwise
the first unique generated code (necessarily among `gen 0 .. gen 9`) is
the one created with. -/
theorem createEventCode_c7 (isUnique : String → Bool) (gen : Nat → String) :
    ((createEventCode isUnique gen =
        Except.error "Failed to generate unique event code. Please try again.")
      ↔ (∀ k, k < 10 → isUnique (gen k) = false))
    ∧ (∀ j, j < 10 → isUnique (gen j) = true →
        (∀ k, k < j → isUnique (gen k) = false) →
        createEventCode isUnique gen = Except.ok (gen j)) := by
  constructor
  · constructor
    · intro h
      by_contra hc
      push_neg at hc
      obtain ⟨k, hk, hu⟩ := hc
      rw [Bool.ne_false_iff] at hu
      have hex : ∃ j, j < 10 ∧ isUnique (gen j) = true := ⟨k, hk, hu⟩
      classical
      have hjlt : Nat.find hex < 10 := (Nat.find_spec hex).1
      have hju : isUnique (gen (Nat.find hex)) = true := (Nat.find_spec hex).2
      have hloop := codeLoop_success isUnique gen 11 0 (by omega)
        (Nat.find hex) (Nat.zero_le _) hjlt hju
        (fun m _ hm => by
          have h10 : m < 10 := lt_trans hm hjlt
          have hnot := Nat.find_min hex hm
          push_neg at hnot
          cases hb : isUnique (gen m) with
          | false => rfl
          | true => exact absurd hb (hnot h10))
      rw [createEventCode] at h
      rw [hloop] at h
      simp only at h
      rw [if_neg (by omega)] at h
      exact absurd h (by simp)
    · intro hall
      have hloop := codeLoop_fail isUnique gen 11 0 (by omega) (by omega)
        (fun k _ hk => hall k hk)
      rw [createEventCode]
      set r := codeLoop isUnique gen 11 (gen 0) 0 with hr
      rw [if_pos (by omega)]
  · intro j hj hu hk
    have hloop := codeLoop_success isUnique gen 11 0 (by omega) j
      (Nat.zero_le _) hj hu (fun k _ hkj => hk k hkj)
    rw [createEventCode, hloop]
    simp only
    rw [if_neg (by omega)]

/-- C7 witness: with only the fourth generated code unique, creation
succeeds with that code. -/
theorem createEventCode_c7_witness :
    createEventCode (fun c => c == "B") (fun i => if i = 3 then "B" else "A") =
      Except.ok "B" := by
  have h := (createEventCode_c7 (fun c => c == "B")
    (fun i => if i = 3 then "B" else "A")).2 3 (by omega) (by decide)
    (by decide)
  simpa using h

/-! ## C8 -/

/-- C8: registering a team and then having the same user (the captain)
leave returns the aggregate to its pre-registration state: the appended
registration is removed again and every other entry keeps its position. -/
theorem registerTeam_leaveTeam_roundtrip_c8 (teamId : String) (e : Event)
    (uid dn : String) (pu : Option String) (tm : List TeamMember)
    (hsize : tm.length = e.teamSize)
    (hnew : isUserRegistered e.registrations uid = false) :
    registerTeam teamId e uid dn pu tm =
      Except.ok ⟨(if e.registrations.length < e.maxTeams then .joined
          else .waitlisted), teamId,
        { e with registrations := e.registrations ++
            [⟨teamId, uid, .user uid dn pu :: tm.drop 1⟩] }⟩
    ∧ leaveTeam { e with registrations := e.registrations ++
          [⟨teamId, uid, .user uid dn pu :: tm.drop 1⟩] } uid =
        Except.ok e := by
  refine ⟨registerTeam_ok_eq teamId e uid dn pu tm hsize hnew, ?_⟩
  have hfind : (e.registrations ++
      [(⟨teamId, uid, .user uid dn pu :: tm.drop 1⟩ : TeamRegistration)]).findIdx?
        (teamHasUser uid) = some e.registrations.length := by
    rw [List.findIdx?_append, findIdx?_none_of_not_registered hnew]
    simp [List.findIdx?_cons, teamHasUser, TeamMember.isUserWithId]
  rw [leaveTeam]
  simp only [hfind]
  have hget : (e.registrations ++
      [(⟨teamId, uid, .user uid dn pu :: tm.drop 1⟩ : TeamRegistration)])[e.registrations.length]? =
      some ⟨teamId, uid, .user uid dn pu :: tm.drop 1⟩ := by
    simp [List.getElem?_append]
  simp only [hget]
  rw [if_pos (by simp)]
  have herase : (e.registrations ++
      [(⟨teamId, uid, .user uid dn pu :: tm.drop 1⟩ : TeamRegistration)]).eraseIdx
        e.registrations.length = e.registrations := by
    rw [List.eraseIdx_eq_take_drop_succ, List.take_left]
    simp
  rw [herase]

/-- C8 witness: on an event with one existing team, register then leave
restores the original registration list. -/
theorem registerTeam_leaveTeam_roundtrip_c8_witness :
    registerTeam "t2" ⟨1, 2, "o", [],
        [⟨"t1", "bob", [.user "bob" "Bob" none]⟩], [], []⟩
      "alice" "Alice" none [.open_] =
      Except.ok ⟨.joined, "t2",
        ⟨1, 2, "o", [],
          [⟨"t1", "bob", [.user "bob" "Bob" none]⟩,
           ⟨"t2", "alice", [.user "alice" "Alice" none]⟩], [], []⟩⟩
    ∧ leaveTeam ⟨1, 2, "o", [],
        [⟨"t1", "bob", [.user "bob" "Bob" none]⟩,
         ⟨"t2", "alice", [.user "alice" "Alice" none]⟩], [], []⟩ "alice" =
      Except.ok ⟨1, 2, "o", [],
        [⟨"t1", "bob", [.user "bob" "Bob" none]⟩], [], []⟩ := by
  have h := registerTeam_leaveTeam_roundtrip_c8 "t2"
    ⟨1, 2, "o", [], [⟨"t1", "bob", [.user "bob" "Bob" none]⟩], [], []⟩
    "alice" "Alice" none [.open_] rfl rfl
  simpa using h

/-! ## C9 -/

/-- C9: `inviteUser` is idempotent (two calls leave a single occurrence
of the id and change nothing the second time), and `removeAdmin` on a
non-admin leaves the event unchanged.  Both operations are total — they
have no error path. -/
theorem inviteUser_removeAdmin_c9 (e : Event) (uid : String)
    (hinv : e.invitedUserIds.count uid ≤ 1)
    (hadm : uid ∉ e.adminIds) :
    (inviteUser (inviteUser e uid) uid).invitedUserIds.count uid = 1
    ∧ inviteUser (inviteUser e uid) uid = inviteUser e uid
    ∧ removeAdmin e uid = e := by
  have hrem : arrayRemove e.adminIds uid = e.adminIds := by
    rw [arrayRemove, List.filter_eq_self]
    intro a ha
    simp only [ne_eq, decide_eq_true_eq]
    exact fun hq => hadm (hq ▸ ha)
  refine ⟨?_, ?_, ?_⟩
  · by_cases h : uid ∈ e.invitedUserIds
    · have h1 : inviteUser e uid = e := by
        simp [inviteUser, arrayUnion, h]
      rw [h1, h1]
      have := List.one_le_count_iff.mpr h
      omega
    · have h1 : (inviteUser e uid).invitedUserIds =
          e.invitedUserIds ++ [uid] := by
        simp [inviteUser, arrayUnion, h]
      have h2 : uid ∈ (inviteUser e uid).invitedUserIds := by
        rw [h1]; simp
      have h3 : arrayUnion (inviteUser e uid).invitedUserIds uid =
          (inviteUser e uid).invitedUserIds := by
        rw [arrayUnion, if_pos h2]
      conv_lhs => rw [inviteUser, h3]
      rw [h1]
      have h0 : e.invitedUserIds.count uid = 0 :=
        List.count_eq_zero.mpr h
      simp [List.count_append, h0]
  · by_cases h : uid ∈ e.invitedUserIds
    · have h1 : inviteUser e uid = e := by
        simp [inviteUser, arrayUnion, h]
      rw [h1, h1]
    · have h2 : uid ∈ (inviteUser e uid).invitedUserIds := by
        simp [inviteUser, arrayUnion, h]
      have h3 : arrayUnion (inviteUser e uid).invitedUserIds uid =
          (inviteUser e uid).invitedUserIds := by
        rw [arrayUnion, if_pos h2]
      conv_lhs => rw [inviteUser, h3]
  · simp [removeAdmin, hrem]

/-- C9 witness: inviting `"x"` twice on an event that already lists
`"x"` once, and removing the non-admin `"x"`. -/
theorem inviteUser_removeAdmin_c9_witness :
    (inviteUser (inviteUser ⟨1, 2, "o", [], [], ["x"], []⟩ "x")
        "x").invitedUserIds.count "x" = 1
    ∧ inviteUser (inviteUser ⟨1, 2, "o", [], [], ["x"], []⟩ "x") "x" =
        inviteUser ⟨1, 2, "o", [], [], ["x"], []⟩ "x"
    ∧ removeAdmin ⟨1, 2, "o", [], [], ["x"], []⟩ "x" =
        ⟨1, 2, "o", [], [], ["x"], []⟩ :=
  inviteUser_removeAdmin_c9 ⟨1, 2, "o", [], [], ["x"], []⟩ "x"
    (by decide) (by decide)

/-! ## C10 -/

/-- C10: `claimSlot` is not restricted to joined registrations.  For a
team found at an index at or beyond `maxTeams` (the waitlist region), a
user who is not yet registered claims any in-range slot exactly when that
slot is `open` or `guest` (the only condition checked on the slot); the
result is `waitlisted` and the new state differs only by the targeted
slot being overwritten — the registration list keeps its length and
order. -/
theorem claimSlot_waitlist_c10 (e : Event) (teamId : String) (mi : Nat)
    (uid dn : String) (pu : Option String) (ti : Nat)
    (team : TeamRegistration) (slot : TeamMember)
    (hreg : isUserRegistered e.registrations uid = false)
    (hfind : e.registrations.findIdx? (fun t => t.id == teamId) = some ti)
    (hget : e.registrations[ti]? = some team)
    (hwait : e.maxTeams ≤ ti)
    (hslot : team.members[mi]? = some slot) :
    ((slot = .open_ ∨ ∃ n, slot = .guest n) →
      claimSlot e teamId mi uid dn pu =
        Except.ok ⟨.waitlisted,
          { e with registrations := e.registrations.set ti
                                      ⟨team.id, team.createdBy, team.members.set mi (.user uid dn pu)⟩ }⟩)
    ∧ (∀ u2 d2 p2, slot = .user u2 d2 p2 →
        claimSlot e teamId mi uid dn pu =
          Except.error "This slot cannot be claimed") := by
  constructor
  · intro hcl
    rw [claimSlot, if_neg (by simp [hreg])]
    simp only [hfind, hget, hslot]
    rcases hcl with rfl | ⟨n, rfl⟩
    · simp only []
      rw [if_neg (by omega)]
    · simp only []
      rw [if_neg (by omega)]
  · rintro u2 d2 p2 rfl
    rw [claimSlot, if_neg (by simp [hreg])]
    simp only [hfind, hget, hslot]

/-- C10 witness: claiming the guest slot of the waitlisted second team
(`maxTeams = 1`) succeeds with status `waitlisted` and overwrites only
that slot. -/
theorem claimSlot_waitlist_c10_witness :
    claimSlot ⟨2, 1, "o", [],
        [⟨"t1", "bob", [.user "bob" "Bob" none, .open_]⟩,
         ⟨"t2", "carol", [.user "carol" "Carol" none, .guest "G"]⟩],
        [], []⟩ "t2" 1 "alice" "Alice" none =
      Except.ok ⟨.waitlisted,
        ⟨2, 1, "o", [],
          [⟨"t1", "bob", [.user "bob" "Bob" none, .open_]⟩,
           ⟨"t2", "carol", [.user "carol" "Carol" none,
              .user "alice" "Alice" none]⟩],
          [], []⟩⟩ := by
  have h := (claimSlot_waitlist_c10 ⟨2, 1, "o", [],
      [⟨"t1", "bob", [.user "bob" "Bob" none, .open_]⟩,
       ⟨"t2", "carol", [.user "carol" "Carol" none, .guest "G"]⟩],
      [], []⟩ "t2" 1 "alice" "Alice" none 1
      ⟨"t2", "carol", [.user "carol" "Carol" none, .guest "G"]⟩
      (.guest "G") rfl rfl rfl (by decide) rfl).1 (Or.inr ⟨"G", rfl⟩)
  exact h

/-! ## C2 -/

/-- Erasing an index strictly below the first index satisfying `p` shifts
that first index down by one. -/
theorem findIdx?_eraseIdx_of_first_at {α : Type} (l : List α)
    (p : α → Bool) (k j : Nat) (hk : k < j)
    (hfind : l.findIdx? p = some j) :
    (l.eraseIdx k).findIdx? p = some (j - 1) := by
  rw [List.findIdx?_eq_some_iff_getElem] at hfind
  obtain ⟨hlen, hp, hmin⟩ := hfind
  have hklen : k < l.length := lt_trans hk hlen
  rw [List.findIdx?_eq_some_iff_getElem]
  have hlen' : j - 1 < (l.eraseIdx k).length := by
    rw [List.length_eraseIdx, if_pos hklen]; omega
  refine ⟨hlen', ?_, ?_⟩
  · have hq : (l.eraseIdx k)[j - 1]? = l[j]? := by
      rw [List.getElem?_eraseIdx, if_neg (by omega)]
      have hj1 : j - 1 + 1 = j := by omega
      rw [hj1]
    rw [List.getElem?_eq_getElem hlen', List.getElem?_eq_getElem hlen] at hq
    rw [Option.some.inj hq]
    exact hp
  · intro m hm
    have hm1 : m < (l.eraseIdx k).length := by omega
    have hq : (l.eraseIdx k)[m]? = if m < k then l[m]? else l[m + 1]? :=
      List.getElem?_eraseIdx l k m
    by_cases hmk : m < k
    · rw [if_pos hmk] at hq
      have hmlen : m < l.length := by omega
      rw [List.getElem?_eq_getElem hm1, List.getElem?_eq_getElem hmlen] at hq
      rw [Option.some.inj hq]
      exact hmin m (by omega)
    · rw [if_neg hmk] at hq
      have hmlen : m + 1 < l.length := by omega
      rw [List.getElem?_eq_getElem hm1, List.getElem?_eq_getElem hmlen] at hq
      rw [Option.some.inj hq]
      exact hmin (m + 1) (by omega)

/-- C2: a user's registration at index `k` is classified `going` iff
`k < maxTeams` (waitlisted with position `k - maxTeams + 1` otherwise);
a captain's `leaveTeam` removes exactly the entry at `k`, keeping the
relative order of the rest, so the entry previously at index `maxTeams`
moves to `maxTeams - 1` and a user first registered there becomes
`going` — with no explicit promotion step. -/
theorem registration_status_promotion_c2 (e : Event) (uid u2 : String)
    (k : Nat) (team : TeamRegistration)
    (hfind : e.registrations.findIdx? (teamHasUser uid) = some k)
    (hget : e.registrations[k]? = some team)
    (hcap : team.createdBy = uid) :
    (getRegistrationStatus e uid =
      if k < e.maxTeams then ⟨.going, none⟩
      else ⟨.waitlisted, some (k - e.maxTeams + 1)⟩)
    ∧ leaveTeam e uid =
        Except.ok { e with registrations := e.registrations.eraseIdx k }
    ∧ (k < e.maxTeams →
        (e.registrations.eraseIdx k)[e.maxTeams - 1]? =
          e.registrations[e.maxTeams]?)
    ∧ (k < e.maxTeams →
        e.registrations.findIdx? (teamHasUser u2) = some e.maxTeams →
        getRegistrationStatus
          { e with registrations := e.registrations.eraseIdx k } u2 =
          ⟨.going, none⟩) := by
  refine ⟨?_, ?_, ?_, ?_⟩
  · rw [getRegistrationStatus]
    simp only [hfind]
  · rw [leaveTeam]
    simp only [hfind, hget]
    rw [if_pos (by simp [hcap])]
  · intro hk
    rw [List.getElem?_eraseIdx, if_neg (by omega)]
    have hj1 : e.maxTeams - 1 + 1 = e.maxTeams := by omega
    rw [hj1]
  · intro hk hfind2
    have hshift := findIdx?_eraseIdx_of_first_at e.registrations
      (teamHasUser u2) k e.maxTeams hk hfind2
    rw [getRegistrationStatus]
    simp only [hshift]
    rw [if_pos (by omega)]

/-- C2 witness: `maxTeams = 1`, Alice joined at index 0, Bob waitlisted
at index 1; Alice (captain) leaves and Bob's team is classified going. -/
theorem registration_status_promotion_c2_witness :
    (getRegistrationStatus ⟨1, 1, "o", [],
        [⟨"t1", "alice", [.user "alice" "Alice" none]⟩,
         ⟨"t2", "bob", [.user "bob" "Bob" none]⟩], [], []⟩ "alice" =
      ⟨.going, none⟩)
    ∧ leaveTeam ⟨1, 1, "o", [],
        [⟨"t1", "alice", [.user "alice" "Alice" none]⟩,
         ⟨"t2", "bob", [.user "bob" "Bob" none]⟩], [], []⟩ "alice" =
      Except.ok ⟨1, 1, "o", [],
        [⟨"t2", "bob", [.user "bob" "Bob" none]⟩], [], []⟩
    ∧ getRegistrationStatus ⟨1, 1, "o", [],
        [⟨"t2", "bob", [.user "bob" "Bob" none]⟩], [], []⟩ "bob" =
      ⟨.going, none⟩ := by
  have h := registration_status_promotion_c2 ⟨1, 1, "o", [],
      [⟨"t1", "alice", [.user "alice" "Alice" none]⟩,
       ⟨"t2", "bob", [.user "bob" "Bob" none]⟩], [], []⟩ "alice" "bob" 0
    ⟨"t1", "alice", [.user "alice" "Alice" none]⟩ rfl rfl rfl
  refine ⟨?_, ?_, ?_⟩
  · have h1 := h.1
    simpa using h1
  · exact h.2.1
  · exact h.2.2.2 (by decide) rfl

/-! ## C5 -/

/-- C5: the embedded `getUserStatusForEvent` computes exactly the spec's
priority classification owner > admin > going > waitlisted > invited >
declined > none, including the secondary registration status carried by
owner/admin. -/
theorem getUserStatusForEvent_priority_c5 (e : Event) (uid : String) :
    getUserStatusForEvent e uid = userStatusPrioritySpec e uid := by
  rw [getUserStatusForEvent, userStatusPrioritySpec]
  cases hfind : e.registrations.findIdx? (teamHasUser uid) with
  | none =>
    simp only [getRegistrationStatus, hfind]
    by_cases ho : e.ownerId = uid
    · simp [ho]
    · by_cases ha : uid ∈ e.adminIds
      · simp [ho, ha, List.contains, List.elem_iff]
      · simp [ho, ha, List.contains, List.elem_iff]
  | some i =>
    simp only [getRegistrationStatus, hfind]
    by_cases hi : i < e.maxTeams
    · by_cases ho : e.ownerId = uid
      · simp [ho, hi]
      · by_cases ha : uid ∈ e.adminIds
        · simp [ho, ha, hi, List.contains, List.elem_iff]
        · simp [ho, ha, hi, List.contains, List.elem_iff]
    · by_cases ho : e.ownerId = uid
      · simp [ho, hi]
      · by_cases ha : uid ∈ e.adminIds
        · simp [ho, ha, hi, List.contains, List.elem_iff]
        · simp [ho, ha, hi, List.contains, List.elem_iff]

/-! ## C3 -/

/-- Replacing one slot can only make `teamHasUser` true via an old member
or via the new slot itself. -/
theorem teamHasUser_of_set {team : TeamRegistration} {i : Nat}
    {m' : TeamMember} {uid : String}
    (h : teamHasUser uid ⟨team.id, team.createdBy,
        team.members.set i m'⟩ = true) :
    teamHasUser uid team = true ∨ m'.isUserWithId uid = true := by
  rw [teamHasUser, List.any_eq_true] at h
  obtain ⟨x, hx, hpx⟩ := h
  rcases List.mem_or_eq_of_mem_set hx with h' | rfl
  · exact Or.inl (List.any_eq_true.mpr ⟨x, h', hpx⟩)
  · exact Or.inr hpx

/-- If the new slot only satisfies `p` when the old one did, setting it
does not increase the `countP`. -/
theorem countP_set_le {α : Type} (p : α → Bool) (l : List α) (i : Nat)
    (a : α) (h : i < l.length)
    (himp : p a = true → p l[i] = true) :
    (l.set i a).countP p ≤ l.countP p := by
  rw [List.countP_set p l i a h]
  by_cases hpa : p a = true
  · rw [if_pos (himp hpa), if_pos hpa]
    have hpos : 0 < l.countP p :=
      List.countP_pos_iff.mpr ⟨l[i], List.getElem_mem h, himp hpa⟩
    omega
  · rw [if_neg hpa]
    omega

/-- Setting any slot keeps the count at most one when the user was in no
team before. -/
theorem countP_set_le_one_of_zero {α : Type} (p : α → Bool) (l : List α)
    (i : Nat) (a : α) (h : i < l.length) (h0 : l.countP p = 0) :
    (l.set i a).countP p ≤ 1 := by
  rw [List.countP_set p l i a h, h0]
  by_cases hpa : p a = true
  · simp [hpa]
  · simp [hpa]

/-- `registerTeam` preserves the at-most-one invariant when the supplied
tail slots are guest/open. -/
theorem registerTeam_preserves_inv (teamId : String) (e : Event)
    (userId dn : String) (pu : Option String) (tm : List TeamMember)
    (r : RegisterResult)
    (hgood : ∀ m ∈ tm.drop 1, m.isUser = false)
    (hinv : AtMostOneInv e)
    (hok : registerTeam teamId e userId dn pu tm = Except.ok r) :
    AtMostOneInv r.event := by
  rw [registerTeam] at hok
  split at hok
  · exact absurd hok (by simp)
  · split at hok
    · exact absurd hok (by simp)
    · rename_i hsize hreg
      rw [Bool.not_eq_true] at hreg
      have hev := congrArg RegisterResult.event (Except.ok.inj hok)
      intro uid
      rw [← hev]
      simp only
      rw [List.countP_append]
      have htail : (tm.drop 1).any (fun m => m.isUserWithId uid) = false := by
        rw [List.any_eq_false]
        intro m hm
        have := hgood m hm
        cases m with
        | user u d p => simp [TeamMember.isUser] at this
        | guest d => simp [TeamMember.isUserWithId]
        | open_ => simp [TeamMember.isUserWithId]
      have hteam : teamHasUser uid
          ⟨teamId, userId, .user userId dn pu :: tm.drop 1⟩ =
          (userId == uid) := by
        rw [teamHasUser]
        simp only [List.any_cons, htail]
        simp [TeamMember.isUserWithId]
      have hone : List.countP (teamHasUser uid)
          [(⟨teamId, userId, .user userId dn pu :: tm.drop 1⟩ :
            TeamRegistration)] =
          if userId == uid then 1 else 0 := by
        rw [List.countP_cons, List.countP_nil, hteam]
        simp
      rw [hone]
      by_cases hu : userId == uid
      · have huid : userId = uid := by simpa using hu
        have h0 : e.registrations.countP (teamHasUser uid) = 0 := by
          rw [← huid]
          exact countP_zero_of_not_registered hreg
        rw [if_pos hu, h0]
      · rw [if_neg hu]
        have := hinv uid
        omega

/-- `addGuestTeam` preserves the at-most-one invariant: the appended team
has no user-type member. -/
theorem addGuestTeam_preserves_inv (teamId : String) (e : Event)
    (admin : String) (names : List String) (r : RegisterResult)
    (hinv : AtMostOneInv e)
    (hok : addGuestTeam teamId e admin names = Except.ok r) :
    AtMostOneInv r.event := by
  rw [addGuestTeam] at hok
  split at hok
  · exact absurd hok (by simp)
  · have hev := congrArg RegisterResult.event (Except.ok.inj hok)
    intro uid
    rw [← hev]
    simp only
    rw [List.countP_append]
    have hzero : List.countP (teamHasUser uid)
        [(⟨teamId, admin, names.map (fun name =>
            .guest (if name.trim = "" then "Guest" else name.trim))⟩ :
          TeamRegistration)] = 0 := by
      simp only [List.countP_cons, List.countP_nil, teamHasUser]
      have : (names.map (fun name => (TeamMember.guest
          (if name.trim = "" then "Guest" else name.trim)))).any
          (fun m => m.isUserWithId uid) = false := by
        rw [List.any_eq_false]
        intro m hm
        obtain ⟨n, _, rfl⟩ := List.mem_map.mp hm
        simp [TeamMember.isUserWithId]
      simp [this]
    rw [hzero]
    have := hinv uid
    omega

/-- `leaveTeam` preserves the at-most-one invariant: it erases a whole
registration or opens one slot. -/
theorem leaveTeam_preserves_inv (e : Event) (uid0 : String) (e' : Event)
    (hinv : AtMostOneInv e) (hok : leaveTeam e uid0 = Except.ok e') :
    AtMostOneInv e' := by
  rw [leaveTeam] at hok
  split at hok
  · exact absurd hok (by simp)
  · rename_i ti hfind
    split at hok
    · exact absurd hok (by simp)
    · rename_i team hget
      split at hok
      · have hev := Except.ok.inj hok
        intro uid
        rw [← hev]
        exact le_trans
          (List.Sublist.countP_le _ (List.eraseIdx_sublist _ _)) (hinv uid)
      · split at hok
        · exact absurd hok (by simp)
        · rename_i mi hmfind
          have hev := Except.ok.inj hok
          intro uid
          rw [← hev]
          have hti : ti < e.registrations.length :=
            (List.getElem?_eq_some.mp hget).1
          have hgetel : e.registrations[ti] = team :=
            (List.getElem?_eq_some.mp hget).2
          refine le_trans (countP_set_le _ _ _ _ hti ?_) (hinv uid)
          intro hnew
          rw [hgetel]
          rcases teamHasUser_of_set hnew with h' | h'
          · exact h'
          · simp [TeamMember.isUserWithId] at h'

/-- `declineEvent` preserves the at-most-one invariant: its registration
change is the same as `leaveTeam`'s. -/
theorem declineEvent_preserves_inv (e : Event) (uid0 : String) (e' : Event)
    (hinv : AtMostOneInv e) (hok : declineEvent e uid0 = Except.ok e') :
    AtMostOneInv e' := by
  rw [declineEvent] at hok
  split at hok
  · exact absurd hok (by simp)
  · rename_i ti hfind
    split at hok
    · exact absurd hok (by simp)
    · rename_i team hget
      have hti : ti < e.registrations.length :=
        (List.getElem?_eq_some.mp hget).1
      have hgetel : e.registrations[ti] = team :=
        (List.getElem?_eq_some.mp hget).2
      split at hok
      · split at hok
        · have hev := Except.ok.inj hok
          intro uid
          rw [← hev]
          exact le_trans
            (List.Sublist.countP_le _ (List.eraseIdx_sublist _ _)) (hinv uid)
        · split at hok
          · exact absurd hok (by simp)
          · rename_i mi hmfind
            have hev := Except.ok.inj hok
            intro uid
            rw [← hev]
            refine le_trans (countP_set_le _ _ _ _ hti ?_) (hinv uid)
            intro hnew
            rw [hgetel]
            rcases teamHasUser_of_set hnew with h' | h'
            · exact h'
            · simp [TeamMember.isUserWithId] at h'
      · split at hok
        · have hev := Except.ok.inj hok
          intro uid
          rw [← hev]
          exact le_trans
            (List.Sublist.countP_le _ (List.eraseIdx_sublist _ _)) (hinv uid)
        · split at hok
          · exact absurd hok (by simp)
          · rename_i mi hmfind
            have hev := Except.ok.inj hok
            intro uid
            rw [← hev]
            refine le_trans (countP_set_le _ _ _ _ hti ?_) (hinv uid)
            intro hnew
            rw [hgetel]
            rcases teamHasUser_of_set hnew with h' | h'
            · exact h'
            · simp [TeamMember.isUserWithId] at h'

/-- `claimSlot` preserves the at-most-one invariant: the claimer was in
no team, and nobody else's membership changes. -/
theorem claimSlot_preserves_inv (e : Event) (teamId : String) (mi : Nat)
    (uid0 dn : String) (pu : Option String) (r : ClaimResult)
    (hinv : AtMostOneInv e)
    (hok : claimSlot e teamId mi uid0 dn pu = Except.ok r) :
    AtMostOneInv r.event := by
  rw [claimSlot] at hok
  split at hok
  · exact absurd hok (by simp)
  · rename_i hreg
    rw [Bool.not_eq_true] at hreg
    split at hok
    · exact absurd hok (by simp)
    · rename_i ti hfind
      split at hok
      · exact absurd hok (by simp)
      · rename_i team hget
        split at hok
        · exact absurd hok (by simp)
        · rename_i slot hslot
          split at hok
          · exact absurd hok (by simp)
          · rename_i hnotuser
            have hev := congrArg ClaimResult.event (Except.ok.inj hok)
            intro uid
            rw [← hev]
            simp only
            have hti : ti < e.registrations.length :=
              (List.getElem?_eq_some.mp hget).1
            have hgetel : e.registrations[ti] = team :=
              (List.getElem?_eq_some.mp hget).2
            by_cases hu : uid = uid0
            · subst hu
              exact countP_set_le_one_of_zero _ _ _ _ hti
                (countP_zero_of_not_registered hreg)
            · refine le_trans (countP_set_le _ _ _ _ hti ?_) (hinv uid)
              intro hnew
              rw [hgetel]
              rcases teamHasUser_of_set hnew with h' | h'
              · exact h'
              · exfalso
                simp [TeamMember.isUserWithId] at h'
                exact hu h'.symm

/-- `updateTeamMember` preserves the at-most-one invariant provided the
new member, when of user type, is a user in no registration. -/
theorem updateTeamMember_preserves_inv (e : Event) (teamId : String)
    (mi : Nat) (uid0 : String) (newMember : TeamMember) (e' : Event)
    (hgood : ∀ u dn pu, newMember = .user u dn pu →
      isUserRegistered e.registrations u = false)
    (hinv : AtMostOneInv e)
    (hok : updateTeamMember e teamId mi uid0 newMember = Except.ok e') :
    AtMostOneInv e' := by
  rw [updateTeamMember] at hok
  split at hok
  · exact absurd hok (by simp)
  · rename_i ti hfind
    split at hok
    · exact absurd hok (by simp)
    · rename_i team hget
      split at hok
      · exact absurd hok (by simp)
      · split at hok
        · exact absurd hok (by simp)
        · have hev := Except.ok.inj hok
          intro uid
          rw [← hev]
          have hti : ti < e.registrations.length :=
            (List.getElem?_eq_some.mp hget).1
          have hgetel : e.registrations[ti] = team :=
            (List.getElem?_eq_some.mp hget).2
          cases newMember with
          | user v vdn vpu =>
            by_cases hu : uid = v
            · subst hu
              exact countP_set_le_one_of_zero _ _ _ _ hti
                (countP_zero_of_not_registered (hgood uid vdn vpu rfl))
            · refine le_trans (countP_set_le _ _ _ _ hti ?_) (hinv uid)
              intro hnew
              rw [hgetel]
              rcases teamHasUser_of_set hnew with h' | h'
              · exact h'
              · exfalso
                simp [TeamMember.isUserWithId] at h'
                exact hu h'.symm
          | guest d =>
            refine le_trans (countP_set_le _ _ _ _ hti ?_) (hinv uid)
            intro hnew
            rw [hgetel]
            rcases teamHasUser_of_set hnew with h' | h'
            · exact h'
            · simp [TeamMember.isUserWithId] at h'
          | open_ =>
            refine le_trans (countP_set_le _ _ _ _ hti ?_) (hinv uid)
            intro hnew
            rw [hgetel]
            rcases teamHasUser_of_set hnew with h' | h'
            · exact h'
            · simp [TeamMember.isUserWithId] at h'

/-- C3 (amended): every state-machine operation preserves the
at-most-one-registration invariant under the spec's input discipline
(`OpGood`): `registerTeam`'s tail slots are guest/open as the spec
declares them, and `updateTeamMember`'s new member, when of user type,
is a user in no registration; all other operations preserve it
unconditionally. -/
theorem opGood_preserves_atMostOne_c3 (op : Op) (e e' : Event)
    (hinv : AtMostOneInv e) (hgood : OpGood op e)
    (hok : applyOp op e = Except.ok e') : AtMostOneInv e' := by
  cases op with
  | registerTeam teamId userId dn pu tm =>
    rw [applyOp] at hok
    cases hr : registerTeam teamId e userId dn pu tm with
    | error msg => rw [hr] at hok; exact absurd hok (by simp [Except.map])
    | ok r =>
      rw [hr] at hok
      simp only [Except.map, Except.ok.injEq] at hok
      rw [← hok]
      exact registerTeam_preserves_inv teamId e userId dn pu tm r
        hgood hinv hr
  | leaveTeam uid =>
    rw [applyOp] at hok
    exact leaveTeam_preserves_inv e uid e' hinv hok
  | declineEvent uid =>
    rw [applyOp] at hok
    exact declineEvent_preserves_inv e uid e' hinv hok
  | claimSlot teamId mi uid dn pu =>
    rw [applyOp] at hok
    cases hr : claimSlot e teamId mi uid dn pu with
    | error msg => rw [hr] at hok; exact absurd hok (by simp [Except.map])
    | ok r =>
      rw [hr] at hok
      simp only [Except.map, Except.ok.injEq] at hok
      rw [← hok]
      exact claimSlot_preserves_inv e teamId mi uid dn pu r hinv hr
  | updateTeamMember teamId mi uid m =>
    rw [applyOp] at hok
    exact updateTeamMember_preserves_inv e teamId mi uid m e'
      hgood hinv hok
  | removeTeam teamId =>
    rw [applyOp] at hok
    have hev := Except.ok.inj hok
    intro uid
    rw [← hev]
    exact le_trans
      (List.Sublist.countP_le _ (List.filter_sublist _)) (hinv uid)
  | addGuestTeam teamId admin names =>
    rw [applyOp] at hok
    cases hr : addGuestTeam teamId e admin names with
    | error msg => rw [hr] at hok; exact absurd hok (by simp [Except.map])
    | ok r =>
      rw [hr] at hok
      simp only [Except.map, Except.ok.injEq] at hok
      rw [← hok]
      exact addGuestTeam_preserves_inv teamId e admin names r hinv hr
  | inviteUser uid =>
    rw [applyOp] at hok
    have hev := Except.ok.inj hok
    intro u
    rw [← hev]
    exact hinv u
  | removeInvitation uid =>
    rw [applyOp] at hok
    have hev := Except.ok.inj hok
    intro u
    rw [← hev]
    exact hinv u
  | declineInvitation uid =>
    rw [applyOp] at hok
    have hev := Except.ok.inj hok
    intro u
    rw [← hev]
    exact hinv u
  | addAdmin uid =>
    rw [applyOp] at hok
    have hev := Except.ok.inj hok
    intro u
    rw [← hev]
    exact hinv u
  | removeAdmin uid =>
    rw [applyOp] at hok
    have hev := Except.ok.inj hok
    intro u
    rw [← hev]
    exact hinv u

/-- C3 counterexample: `updateTeamMember` checks only that the requester
is the captain and the index is a non-captain in-range slot — it never
checks the new member against existing registrations.  Bob, captain of
team `t2`, writes Alice (already registered in `t1`) into his second
slot: the invariant held before and is violated after. -/
theorem updateTeamMember_breaks_atMostOne_c3_counterexample :
    AtMostOneInv ⟨2, 2, "o", [],
      [⟨"t1", "alice", [.user "alice" "Alice" none, .open_]⟩,
       ⟨"t2", "bob", [.user "bob" "Bob" none, .open_]⟩], [], []⟩
    ∧ applyOp (.updateTeamMember "t2" 1 "bob" (.user "alice" "Alice" none))
        ⟨2, 2, "o", [],
          [⟨"t1", "alice", [.user "alice" "Alice" none, .open_]⟩,
           ⟨"t2", "bob", [.user "bob" "Bob" none, .open_]⟩], [], []⟩ =
      Except.ok ⟨2, 2, "o", [],
        [⟨"t1", "alice", [.user "alice" "Alice" none, .open_]⟩,
         ⟨"t2", "bob", [.user "bob" "Bob" none,
            .user "alice" "Alice" none]⟩], [], []⟩
    ∧ ¬ AtMostOneInv ⟨2, 2, "o", [],
        [⟨"t1", "alice", [.user "alice" "Alice" none, .open_]⟩,
         ⟨"t2", "bob", [.user "bob" "Bob" none,
            .user "alice" "Alice" none]⟩], [], []⟩ := by
  refine ⟨?_, rfl, ?_⟩
  · intro uid
    simp only [List.countP_cons, List.countP_nil, teamHasUser, List.any_cons,
      List.any_nil, TeamMember.isUserWithId]
    by_cases ha : "alice" == uid
    · have h1 : uid = "alice" := by
        have := (beq_iff_eq).mp ha
        exact this.symm
      by_cases hb : "bob" == uid
      · have h2 : uid = "bob" := by
          have := (beq_iff_eq).mp hb
          exact this.symm
        rw [h1] at h2
        exact absurd h2 (by decide)
      · simp [ha, hb]
    · by_cases hb : "bob" == uid
      · simp [ha, hb]
      · simp [ha, hb]
  · intro hc
    have := hc "alice"
    revert this
    decide

/-- C3 witness: registering a guest/open-slot team on an empty event
keeps the invariant. -/
theorem opGood_preserves_atMostOne_c3_witness :
    AtMostOneInv ⟨2, 2, "o", [],
      [⟨"t1", "alice", [.user "alice" "Alice" none, .open_]⟩], [], []⟩ := by
  have h := opGood_preserves_atMostOne_c3
    (.registerTeam "t1" "alice" "Alice" none [.open_, .open_])
    ⟨2, 2, "o", [], [], [], []⟩
    ⟨2, 2, "o", [],
      [⟨"t1", "alice", [.user "alice" "Alice" none, .open_]⟩], [], []⟩
    (by intro uid; simp [AtMostOneInv])
    (by intro m hm; simp at hm; rw [hm]; rfl)
    rfl
  exact h

/-! ## C4 -/

/-- C4 counterexample: a successful `registerTeam` by an invited user
does not remove that user from `invitedUserIds` (the write touches only
`registrations`), and `inviteUser` on a declined user leaves the user in
both `invitedUserIds` and `declinedUserIds`. -/
theorem invite_decline_c4_counterexample :
    registerTeam "t1" ⟨1, 8, "o", [], [], ["u"], []⟩ "u" "U" none [.open_] =
      Except.ok ⟨.joined, "t1", ⟨1, 8, "o", [],
        [⟨"t1", "u", [.user "u" "U" none]⟩], ["u"], []⟩⟩
    ∧ "u" ∈ (⟨1, 8, "o", [], [⟨"t1", "u", [.user "u" "U" none]⟩],
        ["u"], []⟩ : Event).invitedUserIds
    ∧ (inviteUser ⟨1, 8, "o", [], [], [], ["v"]⟩ "v").invitedUserIds = ["v"]
    ∧ (inviteUser ⟨1, 8, "o", [], [], [], ["v"]⟩ "v").declinedUserIds =
        ["v"] := by
  refine ⟨rfl, by decide, rfl, rfl⟩

/-- C4 (amended): the operations do not maintain the claimed disjointness
in the data.  `registerTeam` leaves `invitedUserIds` and
`declinedUserIds` unchanged — the accepted invite is instead hidden from
the displayed pending list by the `useEvent` filter, which drops every
registered user; `inviteUser` adds to `invitedUserIds` unconditionally
and never touches `declinedUserIds`; `declineInvitation` is the operation
that removes from `invitedUserIds` and adds to `declinedUserIds`. -/
theorem invite_decline_consistency_c4 (teamId : String) (e : Event)
    (uid dn : String) (pu : Option String) (tm : List TeamMember)
    (r : RegisterResult) (u2 : String)
    (hok : registerTeam teamId e uid dn pu tm = Except.ok r) :
    (r.event.invitedUserIds = e.invitedUserIds ∧
      r.event.declinedUserIds = e.declinedUserIds)
    ∧ (u2 ∈ (inviteUser e u2).invitedUserIds ∧
        (inviteUser e u2).declinedUserIds = e.declinedUserIds)
    ∧ (u2 ∈ pendingInvitedIds e → u2 ∈ e.invitedUserIds ∧
        (registeredUserIds e.registrations).contains u2 = false)
    ∧ (u2 ∉ (declineInvitation e u2).invitedUserIds ∧
        u2 ∈ (declineInvitation e u2).declinedUserIds) := by
  refine ⟨?_, ⟨?_, rfl⟩, ?_, ?_, ?_⟩
  · rw [registerTeam] at hok
    split at hok
    · exact absurd hok (by simp)
    · split at hok
      · exact absurd hok (by simp)
      · have hev := congrArg RegisterResult.event (Except.ok.inj hok)
        rw [← hev]
        exact ⟨rfl, rfl⟩
  · rw [inviteUser]
    simp only [arrayUnion]
    by_cases h : u2 ∈ e.invitedUserIds
    · rw [if_pos h]
      exact h
    · rw [if_neg h]
      simp
  · intro hp
    rw [pendingInvitedIds] at hp
    have := List.mem_filter.mp hp
    refine ⟨this.1, ?_⟩
    have h2 := this.2
    simp only [decide_eq_true_eq] at h2
    rw [Bool.not_eq_true] at h2
    exact h2
  · rw [declineInvitation]
    simp only [arrayRemove]
    intro hc
    have := (List.mem_filter.mp hc).2
    simp at this
  · rw [declineInvitation]
    simp only [arrayUnion]
    by_cases h : u2 ∈ e.declinedUserIds
    · rw [if_pos h]
      exact h
    · rw [if_neg h]
      simp

/-- C4 witness: the amended statement at a concrete event. -/
theorem invite_decline_consistency_c4_witness :
    ((⟨.joined, "t9", ⟨1, 8, "o", [], [⟨"t9", "w", [.user "w" "W" none]⟩],
        ["w"], []⟩⟩ : RegisterResult).event.invitedUserIds =
      (⟨1, 8, "o", [], [], ["w"], []⟩ : Event).invitedUserIds ∧
      (⟨.joined, "t9", ⟨1, 8, "o", [], [⟨"t9", "w", [.user "w" "W" none]⟩],
        ["w"], []⟩⟩ : RegisterResult).event.declinedUserIds =
      (⟨1, 8, "o", [], [], ["w"], []⟩ : Event).declinedUserIds)
    ∧ ("z" ∈ (inviteUser ⟨1, 8, "o", [], [], ["w"], []⟩ "z").invitedUserIds ∧
        (inviteUser ⟨1, 8, "o", [], [], ["w"], []⟩ "z").declinedUserIds =
        (⟨1, 8, "o", [], [], ["w"], []⟩ : Event).declinedUserIds)
    ∧ ("z" ∈ pendingInvitedIds ⟨1, 8, "o", [], [], ["w"], []⟩ →
        "z" ∈ (⟨1, 8, "o", [], [], ["w"], []⟩ : Event).invitedUserIds ∧
        (registeredUserIds (⟨1, 8, "o", [], [], ["w"], []⟩ :
          Event).registrations).contains "z" = false)
    ∧ ("z" ∉ (declineInvitation ⟨1, 8, "o", [], [], ["w"], []⟩
          "z").invitedUserIds ∧
        "z" ∈ (declineInvitation ⟨1, 8, "o", [], [], ["w"], []⟩
          "z").declinedUserIds) :=
  invite_decline_consistency_c4 "t9" ⟨1, 8, "o", [], [], ["w"], []⟩
    "w" "W" none [.open_]
    ⟨.joined, "t9", ⟨1, 8, "o", [], [⟨"t9", "w", [.user "w" "W" none]⟩],
      ["w"], []⟩⟩ "z" rfl
